/-
Verification of the Sheet2Neon ETL pipeline (src/src/etl/etl_pipeline.py)
against its natural-language specification.

Shallow embedding conventions:
* Python strings are modelled as lists of character codes (`Str := List Nat`);
  `str.lower` / `str.upper` / `str.strip` / `str.title` are modelled on ASCII
  codes exactly as Python behaves on ASCII input.
* Python scalar cell values are the inductive `Value` (string, int, pandas
  NaN, Python None).  pandas `.str` accessor semantics on object columns is
  elementwise: a non-string element becomes NaN.
* A raised Python exception is modelled with `Except PyErr`; the validator
  bodies in the source catch only `ValueError`, so `TypeError` propagates.
* The database sink is modelled as the list of natural keys already present;
  `INSERT ... ON CONFLICT ... DO NOTHING` inserts when the key is absent and
  is a no-op otherwise, with `cursor.rowcount` 1 resp. 0.
* `run_etl` is modelled as a function of the pipeline's mutable state
  (`LogData`, mirroring `self.log_data`) and an oracle `RunInput` describing
  the outcomes of the external effects (connection success, extraction
  result); the side effects it performs are recorded in an `Action` trace.
-/
import Mathlib

namespace Sheet2Neon

/-! ## Character-level model of the Python string operations -/

/-- A Python string as a list of character codes. -/
abbrev Str := List Nat

/-- Code points Python treats as whitespace for `str.strip` (ASCII part). -/
def isWs (c : Nat) : Bool := c = 32 || c = 9 || c = 10 || c = 13

/-- ASCII `str.lower` on one character. -/
def lowerChar (c : Nat) : Nat := if 65 ≤ c ∧ c ≤ 90 then c + 32 else c

/-- ASCII `str.upper` on one character. -/
def upperChar (c : Nat) : Nat := if 97 ≤ c ∧ c ≤ 122 then c - 32 else c

/-- ASCII alphabetic (cased) character, the word-state used by `str.title`. -/
def isAlphaChar (c : Nat) : Bool := (65 ≤ c && c ≤ 90) || (97 ≤ c && c ≤ 122)

def lowerStr (s : Str) : Str := s.map lowerChar

def upperStr (s : Str) : Str := s.map upperChar

/-- Python `str.strip()`: drop whitespace from both ends. -/
def stripStr (s : Str) : Str := (s.dropWhile isWs).rdropWhile isWs

/-- The title-casing scan: the Boolean is "previous character was cased". -/
def titleGo (prev : Bool) : Str → Str
  | [] => []
  | c :: cs => (if prev then lowerChar c else upperChar c) :: titleGo (isAlphaChar c) cs

/-- Python `str.title()`. -/
def titleStr (s : Str) : Str := titleGo false s

/-- Decimal digit codes of a natural number (most significant first). -/
def natDigits (n : Nat) : Str := (Nat.toDigits 10 n).map Char.toNat

/-- Python `str` of an integer. -/
def intToStr (n : Int) : Str :=
  if n < 0 then 45 :: natDigits n.natAbs else natDigits n.natAbs

/-- Character codes of a Lean string literal (used to write the Python
string literals of the source). -/
def lit (s : String) : Str := s.toList.map Char.toNat

/-! ## Python scalar values -/

/-- A scalar cell value as it occurs in a pandas frame / Python dict. -/
inductive Value where
  | str : Str → Value
  | int : Int → Value
  | nan : Value
  | none : Value
deriving DecidableEq, Repr

/-- Python truthiness of a `Value` (`float('nan')` is truthy). -/
def truthy : Value → Bool
  | .str s => !s.isEmpty
  | .int n => n ≠ 0
  | .nan => true
  | .none => false

/-- Python `str(v)`. -/
def pyStr : Value → Str
  | .str s => s
  | .int n => intToStr n
  | .nan => lit "nan"
  | .none => lit "None"

/-- The Python exceptions the embedded code distinguishes. -/
inductive PyErr where
  | valueError : PyErr
  | typeError : PyErr
deriving DecidableEq, Repr

/-- ASCII decimal digit. -/
def isDigit (c : Nat) : Bool := 48 ≤ c && c ≤ 57

/-- All-digit string to number, `none` when empty or a non-digit occurs. -/
def digitsToNat (s : Str) : Option Nat :=
  if s ≠ [] ∧ s.all isDigit then
    Option.some (s.foldl (fun a c => a * 10 + (c - 48)) 0)
  else Option.none

/-- Python `int(s)` on a string: optional surrounding whitespace, optional
sign, then decimal digits. -/
def parseIntStr (s : Str) : Option Int :=
  match stripStr s with
  | 45 :: rest => (digitsToNat rest).map (fun n => -(n : Int))
  | 43 :: rest => (digitsToNat rest).map (fun n => (n : Int))
  | t => (digitsToNat t).map (fun n => (n : Int))

/-- Python `int(v)`: identity on ints, parse on strings (`ValueError` on
failure), `ValueError` on NaN, `TypeError` on `None`. -/
def pyInt : Value → Except PyErr Int
  | .int n => .ok n
  | .str s =>
      match parseIntStr s with
      | Option.some n => .ok n
      | Option.none => .error .valueError
  | .nan => .error .valueError
  | .none => .error .typeError

/-! ## Records -/

/-- A raw record (one row of the source table / one Python dict).  A field
holding `Option.none` models an absent key, so `row.get(k)` is total. -/
structure Row where
  name : Option Value := Option.none
  email : Option Value := Option.none
  year : Option Value := Option.none
  department_id : Option Value := Option.none
  code : Option Value := Option.none
  credits : Option Value := Option.none
deriving DecidableEq, Repr

/-- Python `row.get(k)` (default `None`). -/
def getV (o : Option Value) : Value := o.getD .none

/-- Python `row.get(k, 0)`. -/
def getV0 (o : Option Value) : Value := o.getD (.int 0)

/-! ## Validators (`validate_student_data`, `validate_course_data`)

Each mirrors the Python body statement by statement.  The result is
`Except PyErr (Bool × List Str)`: the `try` block catches only
`ValueError`, so a `TypeError` from `int(...)` escapes as `.error`. -/

/-- The check `not row.get(k) or str(row[k]).strip() == ''`. -/
def missingStr (o : Option Value) : Bool :=
  !truthy (getV o) || stripStr (pyStr (getV o)) = []

/-- `validate_student_data` (etl_pipeline.py lines 125-151). -/
def validate_student_data (row : Row) : Except PyErr (Bool × List Str) :=
  let e1 : List Str := if missingStr row.name then [lit "Missing name"] else []
  let e2 : List Str :=
    if !truthy (getV row.email) || !((64 : Nat) ∈ pyStr (getV row.email)) then
      [lit "Invalid email format"]
    else []
  let e4 : List Str :=
    if !truthy (getV row.department_id) then [lit "Missing department_id"] else []
  match pyInt (getV0 row.year) with
  | .ok year =>
      let e3 : List Str :=
        if year = 1 ∨ year = 2 ∨ year = 3 ∨ year = 4 then []
        else [lit "Invalid year: " ++ intToStr year ++ lit " (must be 1-4)"]
      let errors := e1 ++ e2 ++ e3 ++ e4
      .ok (errors.length = 0, errors)
  | .error .valueError =>
      let e3 : List Str := [lit "Year is not a number: " ++ pyStr (getV row.year)]
      let errors := e1 ++ e2 ++ e3 ++ e4
      .ok (errors.length = 0, errors)
  | .error .typeError => .error .typeError

/-- `validate_course_data` (etl_pipeline.py lines 153-170). -/
def validate_course_data (row : Row) : Except PyErr (Bool × List Str) :=
  let e1 : List Str := if missingStr row.code then [lit "Missing course code"] else []
  let e2 : List Str := if missingStr row.name then [lit "Missing course name"] else []
  match pyInt (getV0 row.credits) with
  | .ok credits =>
      let e3 : List Str :=
        if credits = 1 ∨ credits = 2 ∨ credits = 3 ∨ credits = 4 then []
        else [lit "Invalid credits: " ++ intToStr credits ++ lit " (must be 1-4)"]
      .ok ((e1 ++ e2 ++ e3).length = 0, e1 ++ e2 ++ e3)
  | .error .valueError =>
      let e3 : List Str := [lit "Credits is not a number: " ++ pyStr (getV row.credits)]
      .ok ((e1 ++ e2 ++ e3).length = 0, e1 ++ e2 ++ e3)
  | .error .typeError => .error .typeError

/-! ## Run log (`self.log_data`) -/

inductive Status where
  | pending : Status
  | success : Status
  | failed : Status
deriving DecidableEq, Repr

/-- The `self.log_data` dictionary. -/
structure LogData where
  timestamp : Nat
  status : Status
  records_extracted : Nat
  records_transformed : Nat
  records_loaded : Nat
  errors : List Str
deriving DecidableEq, Repr

/-- `ETLPipeline.__init__`: the log as as initialized at construction time
(`datetime.now()` is the abstract construction instant `t`). -/
def initLog (t : Nat) : LogData :=
  { timestamp := t, status := .pending, records_extracted := 0,
    records_transformed := 0, records_loaded := 0, errors := [] }

/-! ## Transform phase -/

/-- `df.drop_duplicates(subset=[k], keep='first')`: keep the first row for
each key value; `seen` is the set of key values already emitted. -/
def dedupGo (key : Row → Value) (seen : List Value) : List Row → List Row
  | [] => []
  | r :: rs =>
      if key r ∈ seen then dedupGo key seen rs
      else r :: dedupGo key (key r :: seen) rs

def dedupByKey (key : Row → Value) (rows : List Row) : List Row :=
  dedupGo key [] rows

/-- pandas `Series.fillna(d)` elementwise (fills NaN and None). -/
def fillna (v : Value) (d : Value) : Value :=
  match v with
  | .nan => d
  | .none => d
  | _ => v

/-- pandas `.str.lower()` elementwise on an object column: a non-string
element becomes NaN. -/
def strLower : Value → Value
  | .str s => .str (lowerStr s)
  | _ => .nan

/-- pandas `.str.upper()` elementwise. -/
def strUpper : Value → Value
  | .str s => .str (upperStr s)
  | _ => .nan

/-- pandas `.str.strip()` elementwise. -/
def strStrip : Value → Value
  | .str s => .str (stripStr s)
  | _ => .nan

/-- pandas `.str.title()` elementwise. -/
def strTitle : Value → Value
  | .str s => .str (titleStr s)
  | _ => .nan

/-- pandas `.astype(int)` elementwise: raises on unconvertible elements. -/
def astypeInt (v : Value) : Except PyErr Value :=
  (pyInt v).map .int

/-- Steps 2-3 of `transform_students` on one row: fill the placeholders,
then `email.lower().strip()`, `name.title().strip()`, `year.astype(int)`. -/
def normStudentRow (r : Row) : Except PyErr Row :=
  match astypeInt (fillna (getV r.year) (.int 1)) with
  | .error e => .error e
  | .ok year1 =>
      .ok { r with
            name := Option.some (strStrip (strTitle (fillna (getV r.name)
              (.str (lit "Unknown"))))),
            email := Option.some (strStrip (strLower (fillna (getV r.email)
              (.str (lit "unknown@example.com"))))),
            year := Option.some year1 }

/-- The normalization step of `transform_courses` on one row:
`code.upper().strip()`, `name.title().strip()`, `credits.astype(int)`. -/
def normCourseRow (r : Row) : Except PyErr Row :=
  match astypeInt (getV r.credits) with
  | .error e => .error e
  | .ok credits1 =>
      .ok { r with
            code := Option.some (strStrip (strUpper (getV r.code))),
            name := Option.some (strStrip (strTitle (getV r.name))),
            credits := Option.some credits1 }

/-- Step 4 of `transform_students`: the validation loop.  A rejected row's
reasons are appended to `self.log_data['errors']`; a `TypeError` raised by
the validator propagates, keeping the log mutations made so far. -/
def studentValidLoop (log : LogData) : List Row → LogData × Except PyErr (List Row)
  | [] => (log, .ok [])
  | r :: rs =>
      match validate_student_data r with
      | .error e => (log, .error e)
      | .ok (ok, errs) =>
          if ok then
            let p := studentValidLoop log rs
            (p.1, p.2.map (fun vs => r :: vs))
          else
            studentValidLoop { log with errors := log.errors ++ errs } rs

/-- The validation loop of `transform_courses`: rejected rows are dropped
and warned about, but their reasons are NOT appended to the log. -/
def courseValidLoop (log : LogData) : List Row → LogData × Except PyErr (List Row)
  | [] => (log, .ok [])
  | r :: rs =>
      match validate_course_data r with
      | .error e => (log, .error e)
      | .ok (ok, _errs) =>
          if ok then
            let p := courseValidLoop log rs
            (p.1, p.2.map (fun vs => r :: vs))
          else
            courseValidLoop log rs

/-- `transform_students` (etl_pipeline.py lines 172-214): dedup on the raw
email, then normalization, then the validation loop, then
`records_transformed := len(df_valid)`. -/
def transform_students (log : LogData) (df : List Row) :
    LogData × Except PyErr (List Row) :=
  let df1 := dedupByKey (fun r => getV r.email) df
  match df1.mapM normStudentRow with
  | .error e => (log, .error e)
  | .ok df2 =>
      match studentValidLoop log df2 with
      | (log1, .error e) => (log1, .error e)
      | (log1, .ok valid) =>
          ({ log1 with records_transformed := valid.length }, .ok valid)

/-- `transform_courses` (etl_pipeline.py lines 216-238): dedup on the raw
code, then normalization, then the validation loop. -/
def transform_courses (log : LogData) (df : List Row) :
    LogData × Except PyErr (List Row) :=
  let df1 := dedupByKey (fun r => getV r.code) df
  match df1.mapM normCourseRow with
  | .error e => (log, .error e)
  | .ok df2 =>
      match courseValidLoop log df2 with
      | (log1, .error e) => (log1, .error e)
      | (log1, .ok valid) =>
          ({ log1 with records_transformed := valid.length }, .ok valid)

/-! ## Load phase (`load_students`, `load_courses`)

The sink table is modelled by the list of natural-key values it contains
(`email` for `student`, `code` for `course`).  Each row triggers
`INSERT ... ON CONFLICT (key) DO NOTHING`; `cursor.rowcount` is 1 when the
row was inserted and 0 when the conflict clause suppressed it, and
`inserted` sums the rowcounts. -/

/-- The per-row insert loop shared by `load_students`/`load_courses`:
returns the new key set and the number of rows actually inserted. -/
def loadGo (key : Row → Value) (keys : List Value) : List Row → List Value × Nat
  | [] => (keys, 0)
  | r :: rs =>
      if key r ∈ keys then loadGo key keys rs
      else
        let p := loadGo key (keys ++ [key r]) rs
        (p.1, p.2 + 1)

/-- `load_students` (etl_pipeline.py lines 244-270): insert loop, then
`records_loaded := inserted`; returns `inserted`. -/
def load_students (log : LogData) (db : List Value) (df : List Row) :
    LogData × List Value × Nat :=
  let p := loadGo (fun r => getV r.email) db df
  ({ log with records_loaded := p.2 }, p.1, p.2)

/-- `load_courses` (etl_pipeline.py lines 272-295). -/
def load_courses (log : LogData) (db : List Value) (df : List Row) :
    LogData × List Value × Nat :=
  let p := loadGo (fun r => getV r.code) db df
  ({ log with records_loaded := p.2 }, p.1, p.2)

/-! ## Orchestrator (`run_etl`) -/

/-- Outcome of `extract_from_csv`'s `pd.read_csv` call: the parsed frame,
or the message of the exception raised (e.g. the file is absent). -/
inductive ExtractResult where
  | ok : List Row → ExtractResult
  | fail : Str → ExtractResult
deriving DecidableEq, Repr

/-- Oracle for one `run_etl` call: whether `psycopg2.connect` succeeds, what
`pd.read_csv` yields, and the `entity_type` argument. -/
structure RunInput where
  connectOk : Bool
  extract : ExtractResult
  entity : Str
deriving DecidableEq, Repr

/-- The observable side effects `run_etl` performs, in order. -/
inductive Action where
  | connectDb : Action
  | extractCsv : Action
  | transformA : Action
  | loadA : Action
  | closeDb : Action
  | saveLog : Action
deriving DecidableEq, Repr

/-- `extract_from_csv` (etl_pipeline.py lines 102-113): on success sets
`records_extracted`; on failure appends the message and returns `None`. -/
def extract_from_csv (log : LogData) (res : ExtractResult) :
    LogData × Option (List Row) :=
  match res with
  | .ok df => ({ log with records_extracted := df.length }, Option.some df)
  | .fail msg => ({ log with errors := log.errors ++ [msg] }, Option.none)

/-- The `try` block of `run_etl`: returns the state reached, the sink keys,
the actions performed, and whether the block completed without raising.
The `except` handler only flips the status, so no message is recorded for
the exceptions raised inside `run_etl` itself. -/
def etlBody (log : LogData) (db : List Value) (inp : RunInput) :
    LogData × List Value × List Action × Bool :=
  if !inp.connectOk then (log, db, [.connectDb], false)
  else
    match extract_from_csv log inp.extract with
    | (log1, Option.none) => (log1, db, [.connectDb, .extractCsv], false)
    | (log1, Option.some df) =>
        if inp.entity = lit "students" then
          match transform_students log1 df with
          | (log2, .error _) =>
              (log2, db, [.connectDb, .extractCsv, .transformA], false)
          | (log2, .ok dft) =>
              let p := load_students log2 db dft
              ({ p.1 with status := .success }, p.2.1,
               [.connectDb, .extractCsv, .transformA, .loadA], true)
        else if inp.entity = lit "courses" then
          match transform_courses log1 df with
          | (log2, .error _) =>
              (log2, db, [.connectDb, .extractCsv, .transformA], false)
          | (log2, .ok dft) =>
              let p := load_courses log2 db dft
              ({ p.1 with status := .success }, p.2.1,
               [.connectDb, .extractCsv, .transformA, .loadA], true)
        else (log1, db, [.connectDb, .extractCsv], false)

/-- `run_etl` (etl_pipeline.py lines 301-348): the `try` body, the `except`
handler setting `status = 'failed'`, and the unconditional `finally` block
running `close_db()` then `save_log()`. -/
def run_etl (log : LogData) (db : List Value) (inp : RunInput) :
    LogData × List Value × List Action :=
  match etlBody log db inp with
  | (log1, db1, acts, ok) =>
      let log2 := if ok then log1 else { log1 with status := .failed }
      (log2, db1, acts ++ [.closeDb, .saveLog])

/-! ## Concrete records used in scenarios and counterexamples -/

/-- A student row with all four columns present. -/
def sRow (n e y d : Value) : Row :=
  { name := Option.some n, email := Option.some e, year := Option.some y,
    department_id := Option.some d }

/-- A course row with all four columns present. -/
def cRow (c n cr d : Value) : Row :=
  { code := Option.some c, name := Option.some n, credits := Option.some cr,
    department_id := Option.some d }

/-! ## Validator lemmas -/

/-! ## Auxiliary definitions: scenario records, run oracles, batch
normalization, title-casing state -/

/-- A student record with the email column absent and year 9. -/
def studentNoEmailYear9 : Row :=
  { name := Option.some (.str (lit "Jo")), year := Option.some (.int 9),
    department_id := Option.some (.int 1) }

/-- A well-formed student record except that its year cell holds Python
`None`: `int(None)` raises `TypeError`, which `except ValueError` misses. -/
def studentYearNone : Row :=
  sRow (.str (lit "Jo")) (.str (lit "a@b.com")) .none (.int 1)

/-- Scenario B's course row: `{code:"", name:"Intro", credits:4, department_id:1}`. -/
def emptyCodeCourse : Row :=
  cRow (.str []) (.str (lit "Intro")) (.int 4) (.int 1)

/-- First record of the C1 counterexample batch: raw email `A@B.com`. -/
def caseDupA : Row := sRow (.str (lit "jo")) (.str (lit "A@B.com")) (.int 1) (.int 1)

/-- Second record: raw email `a@b.com`, equal to the first after
case-folding and trimming, different as a raw string. -/
def caseDupB : Row := sRow (.str (lit "jo")) (.str (lit "a@b.com")) (.int 2) (.int 1)

/-- The oracle of a run called with an entity type that is neither
'students' nor 'courses'. -/
def unknownEntityInput : RunInput :=
  { connectOk := true, extract := .ok [], entity := lit "x" }


/-- Oracle of a run whose source file is absent: `pd.read_csv` raises with
message "boom". -/
def extractFailInput : RunInput :=
  { connectOk := true, extract := .fail (lit "boom"), entity := lit "students" }

/-- Second-invocation oracle for the C10 counterexample: a fully successful
run over one clean record. -/
def cleanRunInput : RunInput :=
  { connectOk := true, extract := .ok [caseDupB], entity := lit "students" }

/-- The word-state of `titleGo` after consuming a string. -/
def titleState (b : Bool) : Str → Bool
  | [] => b
  | c :: cs => titleState (isAlphaChar c) cs

/-- Scalar is not a Python int (the only case where the `.str` accessor
turns a non-missing value into NaN that `fillna` then refills). -/
def notIntV : Value → Bool
  | .int _ => false
  | _ => true

/-- The whole normalization step of `transform_students` on a batch. -/
def normStudentBatch (df : List Row) : Except PyErr (List Row) :=
  df.mapM normStudentRow

/-- The whole normalization step of `transform_courses` on a batch. -/
def normCourseBatch (df : List Row) : Except PyErr (List Row) :=
  df.mapM normCourseRow


/-- First row of the C9 counterexample batch: all-string fields. -/
def mixedNameA : Row := sRow (.str (lit "Bob")) (.str (lit "b@x.com")) (.int 1) (.int 1)

/-- Second row: a numeric `name` cell (a mixed-dtype object column in
pandas), which `.str.title()` maps to NaN. -/
def mixedNameB : Row := sRow (.int 5) (.str (lit "c@x.com")) (.int 1) (.int 1)

/-- `mixedNameB` after one normalization pass: its name has become NaN. -/
def nanNameRow : Row := sRow .nan (.str (lit "c@x.com")) (.int 1) (.int 1)

/-- `mixedNameB` after two passes: `fillna` has replaced the NaN produced
by the first pass with the placeholder. -/
def unknownNameRow : Row :=
  sRow (.str (lit "Unknown")) (.str (lit "c@x.com")) (.int 1) (.int 1)

/-- A course row that is a fixed point of the course normalization. -/
def normedCourse : Row := cRow (.str (lit "CS101")) (.str (lit "Intro")) (.int 4) (.int 1)

deriving instance DecidableEq for Except

theorem validate_student_ok_iff (row : Row) (b : Bool) (es : List Str)
    (h : validate_student_data row = .ok (b, es)) : b = true ↔ es = [] := by
  unfold validate_student_data at h
  rcases hy : pyInt (getV0 row.year) with e | y
  · cases e
    · simp only [hy, Except.ok.injEq, Prod.mk.injEq] at h
      obtain ⟨hb, he⟩ := h
      rw [← hb, ← he, decide_eq_true_eq]
      exact List.length_eq_zero
    · rw [hy] at h
      simp at h
  · simp only [hy, Except.ok.injEq, Prod.mk.injEq] at h
    obtain ⟨hb, he⟩ := h
    rw [← hb, ← he, decide_eq_true_eq]
    exact List.length_eq_zero

theorem validate_course_ok_iff (row : Row) (b : Bool) (es : List Str)
    (h : validate_course_data row = .ok (b, es)) : b = true ↔ es = [] := by
  unfold validate_course_data at h
  rcases hy : pyInt (getV0 row.credits) with e | y
  · cases e
    · simp only [hy, Except.ok.injEq, Prod.mk.injEq] at h
      obtain ⟨hb, he⟩ := h
      rw [← hb, ← he, decide_eq_true_eq]
      exact List.length_eq_zero
    · rw [hy] at h
      simp at h
  · simp only [hy, Except.ok.injEq, Prod.mk.injEq] at h
    obtain ⟨hb, he⟩ := h
    rw [← hb, ← he, decide_eq_true_eq]
    exact List.length_eq_zero

/-- C3: the Validator returns `is_valid = false` iff its reason list is
non-empty, and it reports every violated rule: a student record missing its
email and carrying year 9 yields both the email reason and the year reason. -/
theorem c3_validator_iff_and_complete :
    (∀ (row : Row) (b : Bool) (es : List Str),
        validate_student_data row = .ok (b, es) → (b = false ↔ es ≠ [])) ∧
    (∀ (row : Row) (b : Bool) (es : List Str),
        validate_course_data row = .ok (b, es) → (b = false ↔ es ≠ [])) ∧
    validate_student_data studentNoEmailYear9 =
      .ok (false, [lit "Invalid email format",
                   lit "Invalid year: " ++ intToStr 9 ++ lit " (must be 1-4)"]) := by
  refine ⟨fun row b es h => ?_, fun row b es h => ?_, by decide⟩
  · have := validate_student_ok_iff row b es h
    cases b <;> simp_all
  · have := validate_course_ok_iff row b es h
    cases b <;> simp_all

/-- C3 witness: instantiation at the concrete two-reason record. -/
theorem c3_validator_iff_and_complete_witness :
    (false : Bool) = false ↔
      ([lit "Invalid email format",
        lit "Invalid year: " ++ intToStr 9 ++ lit " (must be 1-4)"] : List Str) ≠ [] :=
  c3_validator_iff_and_complete.1 studentNoEmailYear9 false
    [lit "Invalid email format",
     lit "Invalid year: " ++ intToStr 9 ++ lit " (must be 1-4)"]
    c3_validator_iff_and_complete.2.2

/-- C4: the claim that the Validator never raises fails on the code: with a
`None` year the `int(...)` call raises `TypeError`, which the
`except ValueError` handler does not catch, so the validator raises. -/
theorem c4_validator_raises_on_none_year :
    validate_student_data studentYearNone = .error .typeError ∧
    validate_course_data (cRow (.str (lit "CS1")) (.str (lit "Intro")) .none (.int 1)) =
      .error .typeError := by
  decide

/-! ## Transform soundness: only validated rows survive -/

theorem studentValidLoop_sound (rows : List Row) :
    ∀ (log log' : LogData) (out : List Row),
      studentValidLoop log rows = (log', .ok out) →
      ∀ r ∈ out, validate_student_data r = .ok (true, []) := by
  induction rows with
  | nil =>
      intro log log' out h r hr
      simp only [studentValidLoop, Prod.mk.injEq, Except.ok.injEq] at h
      obtain ⟨-, h2⟩ := h
      subst h2
      cases hr
  | cons a rs ih =>
      intro log log' out h r hr
      unfold studentValidLoop at h
      rcases hv : validate_student_data a with e | ⟨ok, errs⟩
      · simp only [hv] at h
        simp at h
      · simp only [hv] at h
        by_cases hok : ok = true
        · subst hok
          rw [if_pos rfl] at h
          rcases hp : studentValidLoop log rs with ⟨log1, res⟩
          rcases res with e | vs
          · simp [hp, Except.map] at h
          · simp only [hp, Except.map, Prod.mk.injEq, Except.ok.injEq] at h
            obtain ⟨-, h2⟩ := h
            subst h2
            rcases List.mem_cons.mp hr with hr | hr
            · subst hr
              have hes : errs = [] := (validate_student_ok_iff r true errs hv).mp rfl
              rw [hv, hes]
            · exact ih log log1 vs hp r hr
        · rw [if_neg hok] at h
          exact ih _ log' out h r hr

theorem courseValidLoop_sound (rows : List Row) :
    ∀ (log log' : LogData) (out : List Row),
      courseValidLoop log rows = (log', .ok out) →
      ∀ r ∈ out, validate_course_data r = .ok (true, []) := by
  induction rows with
  | nil =>
      intro log log' out h r hr
      simp only [courseValidLoop, Prod.mk.injEq, Except.ok.injEq] at h
      obtain ⟨-, h2⟩ := h
      subst h2
      cases hr
  | cons a rs ih =>
      intro log log' out h r hr
      unfold courseValidLoop at h
      rcases hv : validate_course_data a with e | ⟨ok, errs⟩
      · simp only [hv] at h
        simp at h
      · simp only [hv] at h
        by_cases hok : ok = true
        · subst hok
          rw [if_pos rfl] at h
          rcases hp : courseValidLoop log rs with ⟨log1, res⟩
          rcases res with e | vs
          · simp [hp, Except.map] at h
          · simp only [hp, Except.map, Prod.mk.injEq, Except.ok.injEq] at h
            obtain ⟨-, h2⟩ := h
            subst h2
            rcases List.mem_cons.mp hr with hr | hr
            · subst hr
              have hes : errs = [] := (validate_course_ok_iff r true errs hv).mp rfl
              rw [hv, hes]
            · exact ih log log1 vs hp r hr
        · rw [if_neg hok] at h
          exact ih _ log' out h r hr

theorem transform_students_sound (log : LogData) (df : List Row) (log' : LogData)
    (out : List Row) (h : transform_students log df = (log', .ok out)) :
    ∀ r ∈ out, validate_student_data r = .ok (true, []) := by
  unfold transform_students at h
  rcases hm : (dedupByKey (fun r => getV r.email) df).mapM normStudentRow with e | df2
  · simp only [hm] at h
    simp at h
  · simp only [hm] at h
    rcases hl : studentValidLoop log df2 with ⟨log1, res⟩
    rcases res with e | valid
    · simp [hl] at h
    · simp only [hl, Prod.mk.injEq, Except.ok.injEq] at h
      obtain ⟨-, h2⟩ := h
      subst h2
      exact studentValidLoop_sound df2 log log1 valid hl

theorem transform_courses_sound (log : LogData) (df : List Row) (log' : LogData)
    (out : List Row) (h : transform_courses log df = (log', .ok out)) :
    ∀ r ∈ out, validate_course_data r = .ok (true, []) := by
  unfold transform_courses at h
  rcases hm : (dedupByKey (fun r => getV r.code) df).mapM normCourseRow with e | df2
  · simp only [hm] at h
    simp at h
  · simp only [hm] at h
    rcases hl : courseValidLoop log df2 with ⟨log1, res⟩
    rcases res with e | valid
    · simp [hl] at h
    · simp only [hl, Prod.mk.injEq, Except.ok.injEq] at h
      obtain ⟨-, h2⟩ := h
      subst h2
      exact courseValidLoop_sound df2 log log1 valid hl

/-- C8: every record produced by the transform (hence everything handed to
the load step) passed the entity's validator, and Scenario B: the course
row with an empty code is rejected with reason "Missing course code" and is
absent from the transform output. -/
theorem c8_only_validated_reach_sink :
    (∀ (log : LogData) (df : List Row) (log' : LogData) (out : List Row),
        transform_students log df = (log', .ok out) →
        ∀ r ∈ out, validate_student_data r = .ok (true, [])) ∧
    (∀ (log : LogData) (df : List Row) (log' : LogData) (out : List Row),
        transform_courses log df = (log', .ok out) →
        ∀ r ∈ out, validate_course_data r = .ok (true, [])) ∧
    (transform_courses (initLog 0) [emptyCodeCourse]).2 = .ok [] ∧
    (normCourseRow emptyCodeCourse).bind validate_course_data =
      .ok (false, [lit "Missing course code"]) :=
  ⟨transform_students_sound, transform_courses_sound, by decide, by decide⟩

/-- C5: the code drops course validation rejections from the run log: the
invalid Scenario-B course row is rejected (nothing is transformed), yet the
error list of `self.log_data` stays empty, while the same kind of rejection
on the student side is appended.  The claim that every per-record rejection
for both entities reaches the RunLog therefore fails for courses. -/
theorem c5_course_rejections_dropped_from_log :
    (transform_courses (initLog 0) [emptyCodeCourse]).1.errors = [] ∧
    (transform_courses (initLog 0) [emptyCodeCourse]).2 = .ok [] ∧
    (transform_students (initLog 0)
        [sRow (.str (lit "Jo")) (.str (lit "nope")) (.int 1) (.int 1)]).1.errors =
      [lit "Invalid email format"] := by
  decide

/-- C8 witness: the theorem applied at a concrete one-record batch. -/
theorem c8_only_validated_reach_sink_witness :
    validate_student_data (sRow (.str (lit "Jo")) (.str (lit "a@b.com")) (.int 1) (.int 1)) =
      .ok (true, []) :=
  c8_only_validated_reach_sink.1 (initLog 0) [caseDupA]
    { initLog 0 with records_transformed := 1 }
    [sRow (.str (lit "Jo")) (.str (lit "a@b.com")) (.int 1) (.int 1)]
    (by decide)
    (sRow (.str (lit "Jo")) (.str (lit "a@b.com")) (.int 1) (.int 1))
    (by decide)

/-! ## Deduplication -/

theorem dedupGo_not_seen (key : Row → Value) :
    ∀ (rows : List Row) (seen : List Value) (r' : Row),
      r' ∈ dedupGo key seen rows → key r' ∉ seen := by
  intro rows
  induction rows with
  | nil => intro seen r' h; cases h
  | cons a rs ih =>
      intro seen r' h
      unfold dedupGo at h
      by_cases ha : key a ∈ seen
      · rw [if_pos ha] at h
        exact ih seen r' h
      · rw [if_neg ha] at h
        rcases List.mem_cons.mp h with h | h
        · subst h; exact ha
        · intro hs
          exact ih _ r' h (List.mem_cons_of_mem _ hs)

theorem dedupGo_sublist (key : Row → Value) :
    ∀ (rows : List Row) (seen : List Value), (dedupGo key seen rows).Sublist rows := by
  intro rows
  induction rows with
  | nil => intro seen; simp [dedupGo]
  | cons a rs ih =>
      intro seen
      unfold dedupGo
      by_cases ha : key a ∈ seen
      · rw [if_pos ha]
        exact (ih seen).cons a
      · rw [if_neg ha]
        exact (ih _).cons₂ a

theorem dedupGo_keys_nodup (key : Row → Value) :
    ∀ (rows : List Row) (seen : List Value), ((dedupGo key seen rows).map key).Nodup := by
  intro rows
  induction rows with
  | nil => intro seen; simp [dedupGo]
  | cons a rs ih =>
      intro seen
      unfold dedupGo
      by_cases ha : key a ∈ seen
      · rw [if_pos ha]; exact ih seen
      · rw [if_neg ha]
        simp only [List.map_cons, List.nodup_cons]
        refine ⟨?_, ih _⟩
        intro hmem
        rcases List.mem_map.mp hmem with ⟨r', hr', hk⟩
        exact dedupGo_not_seen key rs (key a :: seen) r' hr'
          (by rw [hk]; exact List.mem_cons_self _ _)

theorem dedupGo_covers (key : Row → Value) :
    ∀ (rows : List Row) (seen : List Value) (r : Row), r ∈ rows →
      key r ∈ seen ∨ ∃ r' ∈ dedupGo key seen rows, key r' = key r := by
  intro rows
  induction rows with
  | nil => intro seen r h; cases h
  | cons a rs ih =>
      intro seen r h
      unfold dedupGo
      by_cases ha : key a ∈ seen
      · rw [if_pos ha]
        rcases List.mem_cons.mp h with h | h
        · subst h; exact Or.inl ha
        · exact ih seen r h
      · rw [if_neg ha]
        rcases List.mem_cons.mp h with h | h
        · subst h
          exact Or.inr ⟨r, List.mem_cons_self _ _, rfl⟩
        · rcases ih (key a :: seen) r h with hin | ⟨r', hr', hk⟩
          · rcases List.mem_cons.mp hin with heq | hin
            · exact Or.inr ⟨a, List.mem_cons_self _ _, heq.symm⟩
            · exact Or.inl hin
          · exact Or.inr ⟨r', List.mem_cons_of_mem _ hr', hk⟩

theorem dedupGo_first_wins (key : Row → Value) :
    ∀ (rows : List Row) (seen : List Value) (r' : Row), r' ∈ dedupGo key seen rows →
      rows.find? (fun r => decide (key r = key r')) = Option.some r' := by
  intro rows
  induction rows with
  | nil => intro seen r' h; cases h
  | cons a rs ih =>
      intro seen r' h
      unfold dedupGo at h
      by_cases ha : key a ∈ seen
      · rw [if_pos ha] at h
        have hne : key a ≠ key r' := by
          intro he
          exact dedupGo_not_seen key rs seen r' h (he ▸ ha)
        rw [List.find?_cons_of_neg]
        · exact ih seen r' h
        · simp [hne]
      · rw [if_neg ha] at h
        rcases List.mem_cons.mp h with h | h
        · subst h
          exact List.find?_cons_of_pos _ (by simp)
        · have hnotin := dedupGo_not_seen key rs (key a :: seen) r' h
          have hne : key a ≠ key r' := fun he => hnotin (by
            rw [← he]; exact List.mem_cons_self _ _)
          rw [List.find?_cons_of_neg]
          · exact ih _ r' h
          · simp [hne]

/-- C1 counterexample: the two records agree on the email key after
case-folding and trimming but differ as raw strings, and BOTH survive
`transform_students` (the claim says exactly the first would): dedup runs
before, not after, normalization. -/
theorem c1_counterexample :
    (transform_students (initLog 0) [caseDupA, caseDupB]).2 =
      .ok [sRow (.str (lit "Jo")) (.str (lit "a@b.com")) (.int 1) (.int 1),
           sRow (.str (lit "Jo")) (.str (lit "a@b.com")) (.int 2) (.int 1)] ∧
    getV caseDupA.email ≠ getV caseDupB.email ∧
    stripStr (lowerStr (pyStr (getV caseDupA.email))) =
      stripStr (lowerStr (pyStr (getV caseDupB.email))) := by
  decide

/-- C1 amended: deduplication operates on the raw, pre-normalization key
with exact equality.  For each raw key it retains exactly the first record
bearing it, in input order (the output is an order-preserving sublist of
the input, its keys are pairwise distinct, every input key is represented,
and each survivor is the first input record with its key). -/
theorem c1_dedup_raw_key_first_wins (key : Row → Value) (rows : List Row) :
    (dedupByKey key rows).Sublist rows ∧
    ((dedupByKey key rows).map key).Nodup ∧
    (∀ r ∈ rows, ∃ r' ∈ dedupByKey key rows, key r' = key r) ∧
    (∀ r' ∈ dedupByKey key rows,
        rows.find? (fun r => decide (key r = key r')) = Option.some r') := by
  refine ⟨dedupGo_sublist key rows [], dedupGo_keys_nodup key rows [], ?_, ?_⟩
  · intro r hr
    rcases dedupGo_covers key rows [] r hr with h | h
    · exact absurd h (List.not_mem_nil _)
    · exact h
  · intro r' hr'
    exact dedupGo_first_wins key rows [] r' hr'

/-- C1 witness: the amended theorem applied to a concrete batch with a
repeated raw key. -/
theorem c1_dedup_raw_key_first_wins_witness :
    (∃ r' ∈ dedupByKey (fun r => getV r.email) [caseDupA, caseDupB, caseDupA],
        getV r'.email = getV caseDupA.email) ∧
    [caseDupA, caseDupB, caseDupA].find?
        (fun r => decide (getV r.email = getV caseDupA.email)) = Option.some caseDupA :=
  ⟨(c1_dedup_raw_key_first_wins (fun r => getV r.email)
      [caseDupA, caseDupB, caseDupA]).2.2.1 caseDupA (by decide),
   (c1_dedup_raw_key_first_wins (fun r => getV r.email)
      [caseDupA, caseDupB, caseDupA]).2.2.2 caseDupA (by decide)⟩

/-! ## Load -/

theorem loadGo_mem_keys (key : Row → Value) :
    ∀ (rows : List Row) (keys : List Value) (v : Value), v ∈ keys →
      v ∈ (loadGo key keys rows).1 := by
  intro rows
  induction rows with
  | nil => intro keys v h; exact h
  | cons a rs ih =>
      intro keys v h
      unfold loadGo
      by_cases ha : key a ∈ keys
      · rw [if_pos ha]; exact ih keys v h
      · rw [if_neg ha]
        show v ∈ (loadGo key (keys ++ [key a]) rs).1
        exact ih _ v (List.mem_append_left _ h)

theorem loadGo_rows_in (key : Row → Value) :
    ∀ (rows : List Row) (keys : List Value) (r : Row), r ∈ rows →
      key r ∈ (loadGo key keys rows).1 := by
  intro rows
  induction rows with
  | nil => intro keys r h; cases h
  | cons a rs ih =>
      intro keys r h
      unfold loadGo
      by_cases ha : key a ∈ keys
      · rw [if_pos ha]
        rcases List.mem_cons.mp h with h | h
        · subst h; exact loadGo_mem_keys key rs keys (key r) ha
        · exact ih keys r h
      · rw [if_neg ha]
        show key r ∈ (loadGo key (keys ++ [key a]) rs).1
        rcases List.mem_cons.mp h with h | h
        · subst h
          exact loadGo_mem_keys key rs _ (key r)
            (List.mem_append_right _ (List.mem_cons_self _ _))
        · exact ih _ r h

theorem loadGo_all_skip (key : Row → Value) :
    ∀ (rows : List Row) (keys : List Value), (∀ r ∈ rows, key r ∈ keys) →
      loadGo key keys rows = (keys, 0) := by
  intro rows
  induction rows with
  | nil => intro keys _; rfl
  | cons a rs ih =>
      intro keys h
      unfold loadGo
      rw [if_pos (h a (List.mem_cons_self _ _))]
      exact ih keys (fun r hr => h r (List.mem_cons_of_mem _ hr))

theorem loadGo_idem (key : Row → Value) (rows : List Row) (keys : List Value) :
    loadGo key (loadGo key keys rows).1 rows = ((loadGo key keys rows).1, 0) :=
  loadGo_all_skip key rows _ (fun r hr => loadGo_rows_in key rows keys r hr)

theorem loadGo_count (key : Row → Value) :
    ∀ (rows : List Row) (keys : List Value),
      (loadGo key keys rows).1.length = keys.length + (loadGo key keys rows).2 := by
  intro rows
  induction rows with
  | nil => intro keys; rfl
  | cons a rs ih =>
      intro keys
      unfold loadGo
      by_cases ha : key a ∈ keys
      · rw [if_pos ha]; exact ih keys
      · rw [if_neg ha]
        show (loadGo key (keys ++ [key a]) rs).1.length =
          keys.length + ((loadGo key (keys ++ [key a]) rs).2 + 1)
        have := ih (keys ++ [key a])
        simp only [List.length_append, List.length_singleton] at this
        omega

/-- C2: loading is idempotent against the sink.  (a) re-running the load of
a batch on the key set it produced persists nothing (`loaded_count = 0` and
the sink is unchanged); (b) a record whose natural key is already in the
sink is a no-op: same count, same keys, same log, no duplicate row and (the
model being a total function) no exception; (c) the returned/logged count
is the number of rows actually persisted, i.e. the growth of the sink. -/
theorem c2_load_insert_or_ignore_idempotent :
    (∀ (log log2 : LogData) (db : List Value) (df : List Row),
        load_students log2 (load_students log db df).2.1 df =
          ({ log2 with records_loaded := 0 }, (load_students log db df).2.1, 0)) ∧
    (∀ (log : LogData) (db : List Value) (r : Row) (df : List Row),
        getV r.email ∈ db → load_students log db (r :: df) = load_students log db df) ∧
    (∀ (log : LogData) (db : List Value) (df : List Row),
        (load_students log db df).2.1.length = db.length + (load_students log db df).2.2 ∧
        (load_students log db df).1.records_loaded = (load_students log db df).2.2) := by
  refine ⟨fun log log2 db df => ?_, fun log db r df h => ?_, fun log db df => ?_⟩
  · unfold load_students
    rw [loadGo_idem]
  · unfold load_students
    have hskip : loadGo (fun r => getV r.email) db (r :: df) =
        loadGo (fun r => getV r.email) db df := by
      simp only [loadGo]
      rw [if_pos h]
    rw [hskip]
  · exact ⟨loadGo_count (fun r => getV r.email) df db, rfl⟩

/-- C2 witness: applied with a sink that already contains the key. -/
theorem c2_load_insert_or_ignore_idempotent_witness :
    load_students (initLog 0) [Value.str (lit "a@b.com")]
        [sRow (.str (lit "Jo")) (.str (lit "a@b.com")) (.int 1) (.int 1)] =
      load_students (initLog 0) [Value.str (lit "a@b.com")] [] :=
  c2_load_insert_or_ignore_idempotent.2.1 (initLog 0) [Value.str (lit "a@b.com")]
    (sRow (.str (lit "Jo")) (.str (lit "a@b.com")) (.int 1) (.int 1)) [] (by decide)

/-! ## Orchestrator lemmas -/

theorem etlBody_spec (log : LogData) (db : List Value) (inp : RunInput) :
    ((etlBody log db inp).2.2.2 = true → (etlBody log db inp).1.status = .success) ∧
    ((etlBody log db inp).2.2.1 = [.connectDb] ∨
     (etlBody log db inp).2.2.1 = [.connectDb, .extractCsv] ∨
     (etlBody log db inp).2.2.1 = [.connectDb, .extractCsv, .transformA] ∨
     (etlBody log db inp).2.2.1 = [.connectDb, .extractCsv, .transformA, .loadA]) := by
  unfold etlBody extract_from_csv
  repeat' split
  all_goals simp

/-- C6: every run reaches a terminal status (`success` or `failed`, never
`pending`), and the `finally` cleanup — connection release then RunLog
persistence — happens exactly once, at the end of the trace; moreover when
extraction fails (absent source file) a fresh pipeline's run ends `failed`
with `records_extracted = 0` and the RunLog still written. -/
theorem c6_terminal_status_and_cleanup_once :
    (∀ (log : LogData) (db : List Value) (inp : RunInput),
        ((run_etl log db inp).1.status = .success ∨
         (run_etl log db inp).1.status = .failed) ∧
        (run_etl log db inp).2.2.count .closeDb = 1 ∧
        (run_etl log db inp).2.2.count .saveLog = 1 ∧
        (run_etl log db inp).2.2.getLast? = Option.some .saveLog) ∧
    (∀ (t : Nat) (db : List Value) (inp : RunInput) (msg : Str),
        inp.extract = .fail msg →
        (run_etl (initLog t) db inp).1.status = .failed ∧
        (run_etl (initLog t) db inp).1.records_extracted = 0 ∧
        .saveLog ∈ (run_etl (initLog t) db inp).2.2) := by
  constructor
  · intro log db inp
    obtain ⟨hok, hacts⟩ := etlBody_spec log db inp
    rcases hb : etlBody log db inp with ⟨log1, db1, acts, ok⟩
    rw [hb] at hok hacts
    simp only at hok hacts
    simp only [run_etl, hb]
    constructor
    · cases ok
      · right; rfl
      · left; exact hok rfl
    · rcases hacts with h | h | h | h <;> subst h <;> cases ok <;> decide
  · intro t db inp msg hm
    rcases inp with ⟨c, ex, ent⟩
    simp only at hm
    subst hm
    cases c
    · simp [run_etl, etlBody, initLog]
    · simp [run_etl, etlBody, extract_from_csv, initLog]

/-- C7 counterexample: on a run with an unknown entity type the code DOES
acquire the sink connection and DOES attempt extraction before failing —
the claim says neither happens. -/
theorem c7_counterexample :
    (run_etl (initLog 0) [] unknownEntityInput).1.status = .failed ∧
    Action.connectDb ∈ (run_etl (initLog 0) [] unknownEntityInput).2.2 ∧
    Action.extractCsv ∈ (run_etl (initLog 0) [] unknownEntityInput).2.2 := by
  decide

/-- C7 amended: a run with an unknown entity type is rejected as failed,
but only AFTER the sink connection is acquired and source extraction is
attempted; no transform or load is performed and the sink is untouched. -/
theorem c7_unknown_entity_fails_after_io (log : LogData) (db : List Value)
    (inp : RunInput) (df : List Row)
    (hc : inp.connectOk = true) (he : inp.extract = .ok df)
    (h1 : inp.entity ≠ lit "students") (h2 : inp.entity ≠ lit "courses") :
    (run_etl log db inp).1.status = .failed ∧
    (run_etl log db inp).2.2 = [.connectDb, .extractCsv, .closeDb, .saveLog] ∧
    (run_etl log db inp).2.1 = db ∧
    (run_etl log db inp).1.records_loaded = log.records_loaded ∧
    (run_etl log db inp).1.records_transformed = log.records_transformed := by
  rcases inp with ⟨c, ex, ent⟩
  simp only at hc he h1 h2
  subst hc
  subst he
  simp [run_etl, etlBody, extract_from_csv, h1, h2]

/-- C7 witness: the amended theorem at the concrete unknown-entity run. -/
theorem c7_unknown_entity_fails_after_io_witness :
    (run_etl (initLog 0) [] unknownEntityInput).1.status = .failed ∧
    (run_etl (initLog 0) [] unknownEntityInput).2.2 =
      [.connectDb, .extractCsv, .closeDb, .saveLog] ∧
    (run_etl (initLog 0) [] unknownEntityInput).2.1 = [] ∧
    (run_etl (initLog 0) [] unknownEntityInput).1.records_loaded =
      (initLog 0).records_loaded ∧
    (run_etl (initLog 0) [] unknownEntityInput).1.records_transformed =
      (initLog 0).records_transformed :=
  c7_unknown_entity_fails_after_io (initLog 0) [] unknownEntityInput []
    (by decide) (by decide) (by decide) (by decide)

/-- C6 witness: the extraction-failure part at a concrete absent-file run. -/
theorem c6_terminal_status_and_cleanup_once_witness :
    (run_etl (initLog 0) [] extractFailInput).1.status = .failed ∧
    (run_etl (initLog 0) [] extractFailInput).1.records_extracted = 0 ∧
    .saveLog ∈ (run_etl (initLog 0) [] extractFailInput).2.2 :=
  c6_terminal_status_and_cleanup_once.2 0 [] extractFailInput (lit "boom") (by decide)

/-! ## RunLog lifetime (C10) -/

theorem studentValidLoop_log_shape (rows : List Row) :
    ∀ (log : LogData), ∃ es,
      (studentValidLoop log rows).1 = { log with errors := log.errors ++ es } := by
  induction rows with
  | nil => intro log; exact ⟨[], by simp [studentValidLoop]⟩
  | cons a rs ih =>
      intro log
      rcases hv : validate_student_data a with e | ⟨ok, errs⟩
      · refine ⟨[], ?_⟩
        unfold studentValidLoop
        simp [hv]
      · by_cases hok : ok = true
        · subst hok
          obtain ⟨es, hes⟩ := ih log
          refine ⟨es, ?_⟩
          unfold studentValidLoop
          simp [hv, hes]
        · obtain ⟨es, hes⟩ := ih { log with errors := log.errors ++ errs }
          refine ⟨errs ++ es, ?_⟩
          unfold studentValidLoop
          simp [hv, hok, hes]

theorem courseValidLoop_log_id (rows : List Row) :
    ∀ (log : LogData), (courseValidLoop log rows).1 = log := by
  induction rows with
  | nil => intro log; rfl
  | cons a rs ih =>
      intro log
      rcases hv : validate_course_data a with e | ⟨ok, errs⟩
      · unfold courseValidLoop
        simp [hv]
      · by_cases hok : ok = true
        · subst hok
          unfold courseValidLoop
          simp [hv, ih]
        · unfold courseValidLoop
          simp [hv, hok, ih]

theorem transform_students_log_shape (log : LogData) (df : List Row) :
    ∃ es n, (transform_students log df).1 =
      { log with errors := log.errors ++ es, records_transformed := n } := by
  rcases hm : (dedupByKey (fun r => getV r.email) df).mapM normStudentRow with e | df2
  · refine ⟨[], log.records_transformed, ?_⟩
    simp only [transform_students, hm, List.append_nil]
  · obtain ⟨es, hes⟩ := studentValidLoop_log_shape df2 log
    rcases hl : studentValidLoop log df2 with ⟨log1, res⟩
    rw [hl] at hes
    simp only at hes
    rcases res with e | valid
    · refine ⟨es, log.records_transformed, ?_⟩
      simp only [transform_students, hm, hl, hes]
    · refine ⟨es, valid.length, ?_⟩
      simp only [transform_students, hm, hl, hes]

theorem transform_courses_log_shape (log : LogData) (df : List Row) :
    ∃ n, (transform_courses log df).1 =
      { log with records_transformed := n } := by
  rcases hm : (dedupByKey (fun r => getV r.code) df).mapM normCourseRow with e | df2
  · refine ⟨log.records_transformed, ?_⟩
    simp only [transform_courses, hm]
  · have hid := courseValidLoop_log_id df2 log
    rcases hl : courseValidLoop log df2 with ⟨log1, res⟩
    rw [hl] at hid
    simp only at hid
    rcases res with e | valid
    · refine ⟨log.records_transformed, ?_⟩
      simp only [transform_courses, hm, hl, hid]
    · refine ⟨valid.length, ?_⟩
      simp only [transform_courses, hm, hl, hid]

theorem etlBody_log_carryover (log : LogData) (db : List Value) (inp : RunInput) :
    (etlBody log db inp).1.timestamp = log.timestamp ∧
    ∃ es, (etlBody log db inp).1.errors = log.errors ++ es := by
  rcases inp with ⟨c, ex, ent⟩
  cases c
  · exact ⟨by simp [etlBody], [], by simp [etlBody]⟩
  · cases ex with
    | fail msg =>
        exact ⟨by simp [etlBody, extract_from_csv], [msg],
               by simp [etlBody, extract_from_csv]⟩
    | ok df =>
        by_cases hs : ent = lit "students"
        · obtain ⟨es, n, hshape⟩ := transform_students_log_shape
            { log with records_extracted := df.length } df
          rcases hres : transform_students { log with records_extracted := df.length } df
            with ⟨log2, res⟩
          rw [hres] at hshape
          simp only at hshape
          rcases res with e | dft
          · exact ⟨by simp [etlBody, extract_from_csv, hs, hres, hshape],
                   es, by simp [etlBody, extract_from_csv, hs, hres, hshape]⟩
          · exact ⟨by simp [etlBody, extract_from_csv, hs, hres, hshape, load_students],
                   es, by simp [etlBody, extract_from_csv, hs, hres, hshape, load_students]⟩
        · by_cases hcrs : ent = lit "courses"
          · subst hcrs
            obtain ⟨n, hshape⟩ := transform_courses_log_shape
              { log with records_extracted := df.length } df
            rcases hres : transform_courses { log with records_extracted := df.length } df
              with ⟨log2, res⟩
            rw [hres] at hshape
            simp only at hshape
            rcases res with e | dft
            · exact ⟨by simp [etlBody, extract_from_csv, hs, hres, hshape],
                     [], by simp [etlBody, extract_from_csv, hs, hres, hshape]⟩
            · exact ⟨by simp [etlBody, extract_from_csv, hs, hres, hshape, load_courses],
                     [], by simp [etlBody, extract_from_csv, hs, hres, hshape, load_courses]⟩
          · exact ⟨by simp [etlBody, extract_from_csv, hs, hcrs],
                   [], by simp [etlBody, extract_from_csv, hs, hcrs]⟩

/-- C10 counterexample: two `run_etl` invocations on the same pipeline
instance.  The second one succeeds and rejects nothing, yet the RunLog it
persists still contains the FIRST invocation's extraction error (and the
construction-time timestamp), because `self.log_data` is initialized in
`__init__`, not per invocation. -/
theorem c10_counterexample :
    (run_etl (run_etl (initLog 5) [] extractFailInput).1
        (run_etl (initLog 5) [] extractFailInput).2.1 cleanRunInput).1.status =
      .success ∧
    (run_etl (run_etl (initLog 5) [] extractFailInput).1
        (run_etl (initLog 5) [] extractFailInput).2.1 cleanRunInput).1.errors =
      [lit "boom"] ∧
    (run_etl (run_etl (initLog 5) [] extractFailInput).1
        (run_etl (initLog 5) [] extractFailInput).2.1 cleanRunInput).1.timestamp = 5 := by
  decide

/-- C10 amended: the RunLog state is per pipeline instance: a `run_etl`
call keeps the construction timestamp, only appends to the inherited error
list (never resets it), and persists the log exactly once per call. -/
theorem c10_runlog_per_instance (log : LogData) (db : List Value) (inp : RunInput) :
    (run_etl log db inp).1.timestamp = log.timestamp ∧
    (∃ es, (run_etl log db inp).1.errors = log.errors ++ es) ∧
    (run_etl log db inp).2.2.count .saveLog = 1 := by
  obtain ⟨ht, es, he⟩ := etlBody_log_carryover log db inp
  obtain ⟨-, hacts⟩ := etlBody_spec log db inp
  rcases hb : etlBody log db inp with ⟨log1, db1, acts, ok⟩
  rw [hb] at ht he hacts
  simp only at ht he hacts
  refine ⟨?_, ⟨es, ?_⟩, ?_⟩
  · simp only [run_etl, hb]
    cases ok <;> simpa using ht
  · simp only [run_etl, hb]
    cases ok <;> simpa using he
  · simp only [run_etl, hb]
    rcases hacts with h | h | h | h <;> subst h <;> cases ok <;> decide


/-! ## Normalizer idempotence: character-level lemmas (C9) -/

theorem lowerChar_lowerChar (c : Nat) : lowerChar (lowerChar c) = lowerChar c := by
  unfold lowerChar
  split
  · split <;> omega
  · rfl

theorem upperChar_upperChar (c : Nat) : upperChar (upperChar c) = upperChar c := by
  unfold upperChar
  split
  · split <;> omega
  · rfl

theorem isWs_lowerChar (c : Nat) : isWs (lowerChar c) = isWs c := by
  rw [Bool.eq_iff_iff]
  simp only [isWs, lowerChar, Bool.or_eq_true, decide_eq_true_eq]
  split <;> omega

theorem isWs_upperChar (c : Nat) : isWs (upperChar c) = isWs c := by
  rw [Bool.eq_iff_iff]
  simp only [isWs, upperChar, Bool.or_eq_true, decide_eq_true_eq]
  split <;> omega

theorem isAlphaChar_lowerChar (c : Nat) : isAlphaChar (lowerChar c) = isAlphaChar c := by
  rw [Bool.eq_iff_iff]
  simp only [isAlphaChar, lowerChar, Bool.or_eq_true, Bool.and_eq_true, decide_eq_true_eq]
  split <;> omega

theorem isAlphaChar_upperChar (c : Nat) : isAlphaChar (upperChar c) = isAlphaChar c := by
  rw [Bool.eq_iff_iff]
  simp only [isAlphaChar, upperChar, Bool.or_eq_true, Bool.and_eq_true, decide_eq_true_eq]
  split <;> omega

theorem upperChar_of_ws (c : Nat) (h : isWs c = true) : upperChar c = c := by
  simp only [isWs, Bool.or_eq_true, decide_eq_true_eq] at h
  unfold upperChar
  split <;> omega

theorem not_alpha_of_ws (c : Nat) (h : isWs c = true) : isAlphaChar c = false := by
  simp only [isWs, Bool.or_eq_true, decide_eq_true_eq] at h
  simp only [isAlphaChar, Bool.or_eq_false_iff, Bool.and_eq_false_iff, decide_eq_false_iff_not]
  omega

/-! ## Normalizer idempotence: strip / map lemmas -/

theorem lowerStr_lowerStr (s : Str) : lowerStr (lowerStr s) = lowerStr s := by
  unfold lowerStr
  rw [List.map_map]
  exact List.map_congr_left (fun a _ => lowerChar_lowerChar a)

theorem upperStr_upperStr (s : Str) : upperStr (upperStr s) = upperStr s := by
  unfold upperStr
  rw [List.map_map]
  exact List.map_congr_left (fun a _ => upperChar_upperChar a)

theorem stripStr_map (f : Nat → Nat) (hf : ∀ c, isWs (f c) = isWs c) (s : Str) :
    stripStr (s.map f) = (stripStr s).map f := by
  have hcomp : (isWs ∘ f) = isWs := funext hf
  have hdw : ∀ (l : Str), (l.map f).dropWhile isWs = (l.dropWhile isWs).map f := by
    intro l
    rw [List.dropWhile_map, hcomp]
  unfold stripStr List.rdropWhile
  rw [hdw, ← List.map_reverse, hdw, ← List.map_reverse]

theorem stripStr_lowerStr (s : Str) : stripStr (lowerStr s) = lowerStr (stripStr s) := by
  unfold lowerStr
  exact stripStr_map lowerChar isWs_lowerChar s

theorem stripStr_upperStr (s : Str) : stripStr (upperStr s) = upperStr (stripStr s) := by
  unfold upperStr
  exact stripStr_map upperChar isWs_upperChar s

theorem dropWhile_head_false (p : Nat → Bool) (l : Str)
    (h : ∀ c, l.head? = Option.some c → p c = false) : l.dropWhile p = l := by
  cases l with
  | nil => rfl
  | cons a t => exact List.dropWhile_cons_of_neg (by simp [h a rfl])

theorem stripStr_idem (s : Str) : stripStr (stripStr s) = stripStr s := by
  have h1 : (stripStr s).dropWhile isWs = stripStr s := by
    apply dropWhile_head_false
    intro c hc
    obtain ⟨t, ht⟩ := List.rdropWhile_prefix isWs (s.dropWhile isWs)
    have hx : (s.dropWhile isWs).head? = Option.some c := by
      rw [← ht, List.head?_append]
      unfold stripStr at hc
      rw [hc]
      rfl
    have := List.head?_dropWhile_not isWs s
    rw [hx] at this
    exact this
  show ((stripStr s).dropWhile isWs).rdropWhile isWs = stripStr s
  rw [h1]
  unfold stripStr
  exact List.rdropWhile_idempotent _ _

theorem lower_strip_fix (s : Str) :
    stripStr (lowerStr (stripStr (lowerStr s))) = stripStr (lowerStr s) := by
  calc stripStr (lowerStr (stripStr (lowerStr s)))
      = stripStr (lowerStr (lowerStr (stripStr s))) := by rw [stripStr_lowerStr s]
    _ = stripStr (lowerStr (stripStr s)) := by rw [lowerStr_lowerStr]
    _ = lowerStr (stripStr (stripStr s)) := stripStr_lowerStr _
    _ = lowerStr (stripStr s) := by rw [stripStr_idem]
    _ = stripStr (lowerStr s) := (stripStr_lowerStr s).symm

theorem upper_strip_fix (s : Str) :
    stripStr (upperStr (stripStr (upperStr s))) = stripStr (upperStr s) := by
  calc stripStr (upperStr (stripStr (upperStr s)))
      = stripStr (upperStr (upperStr (stripStr s))) := by rw [stripStr_upperStr s]
    _ = stripStr (upperStr (stripStr s)) := by rw [upperStr_upperStr]
    _ = upperStr (stripStr (stripStr s)) := stripStr_upperStr _
    _ = upperStr (stripStr s) := by rw [stripStr_idem]
    _ = stripStr (upperStr s) := (stripStr_upperStr s).symm


/-! ## Normalizer idempotence: title-casing lemmas -/

theorem titleGo_length (b : Bool) (l : Str) : (titleGo b l).length = l.length := by
  induction l generalizing b with
  | nil => rfl
  | cons c cs ih => simp [titleGo, ih]

theorem titleGo_append (b : Bool) (l1 l2 : Str) :
    titleGo b (l1 ++ l2) = titleGo b l1 ++ titleGo (titleState b l1) l2 := by
  induction l1 generalizing b with
  | nil => rfl
  | cons c cs ih => simp [titleGo, titleState, ih]

theorem titleGo_idem (b : Bool) (l : Str) : titleGo b (titleGo b l) = titleGo b l := by
  induction l generalizing b with
  | nil => rfl
  | cons c cs ih =>
      cases b
      · have h1 : titleGo false (c :: cs) = upperChar c :: titleGo (isAlphaChar c) cs := rfl
        have h2 : titleGo false (upperChar c :: titleGo (isAlphaChar c) cs) =
            upperChar (upperChar c) ::
              titleGo (isAlphaChar (upperChar c)) (titleGo (isAlphaChar c) cs) := rfl
        rw [h1, h2, upperChar_upperChar, isAlphaChar_upperChar, ih]
      · have h1 : titleGo true (c :: cs) = lowerChar c :: titleGo (isAlphaChar c) cs := rfl
        have h2 : titleGo true (lowerChar c :: titleGo (isAlphaChar c) cs) =
            lowerChar (lowerChar c) ::
              titleGo (isAlphaChar (lowerChar c)) (titleGo (isAlphaChar c) cs) := rfl
        rw [h1, h2, lowerChar_lowerChar, isAlphaChar_lowerChar, ih]

theorem titleGo_ws (p : Str) (hp : ∀ c ∈ p, isWs c = true) :
    titleGo false p = p ∧ titleState false p = false := by
  induction p with
  | nil => exact ⟨rfl, rfl⟩
  | cons c cs ih =>
      have hc : isWs c = true := hp c (List.mem_cons_self _ _)
      have hcs : ∀ x ∈ cs, isWs x = true := fun x hx => hp x (List.mem_cons_of_mem _ hx)
      obtain ⟨h1, h2⟩ := ih hcs
      constructor
      · unfold titleGo
        rw [if_neg (by simp), upperChar_of_ws c hc, not_alpha_of_ws c hc, h1]
      · unfold titleState
        rw [not_alpha_of_ws c hc, h2]

theorem rdropWhile_append_rtakeWhile (p : Nat → Bool) (l : Str) :
    l.rdropWhile p ++ l.rtakeWhile p = l := by
  unfold List.rdropWhile List.rtakeWhile
  rw [← List.reverse_append, List.takeWhile_append_dropWhile, List.reverse_reverse]

theorem titleStr_strip_fix (s : Str) :
    titleStr (stripStr (titleStr s)) = stripStr (titleStr s) := by
  unfold titleStr
  have hu : titleGo false (titleGo false s) = titleGo false s := titleGo_idem false s
  have hsplit1 : (titleGo false s).takeWhile isWs ++ (titleGo false s).dropWhile isWs =
      titleGo false s := List.takeWhile_append_dropWhile isWs _
  have hsplit2 : ((titleGo false s).dropWhile isWs).rdropWhile isWs ++
      ((titleGo false s).dropWhile isWs).rtakeWhile isWs =
      (titleGo false s).dropWhile isWs :=
    rdropWhile_append_rtakeWhile isWs _
  have hP : ∀ c ∈ (titleGo false s).takeWhile isWs, isWs c = true :=
    fun c hc => List.mem_takeWhile_imp hc
  have hQ : ∀ c ∈ ((titleGo false s).dropWhile isWs).rtakeWhile isWs, isWs c = true :=
    fun c hc => List.mem_rtakeWhile_imp hc
  obtain ⟨hPfix, hPstate⟩ := titleGo_ws _ hP
  have hdecomp : titleGo false s =
      (titleGo false s).takeWhile isWs ++
      (((titleGo false s).dropWhile isWs).rdropWhile isWs ++
        ((titleGo false s).dropWhile isWs).rtakeWhile isWs) := by
    rw [hsplit2, hsplit1]
  have hexp : titleGo false (titleGo false s) =
      (titleGo false s).takeWhile isWs ++
      (titleGo false (((titleGo false s).dropWhile isWs).rdropWhile isWs) ++
        titleGo (titleState false (((titleGo false s).dropWhile isWs).rdropWhile isWs))
          (((titleGo false s).dropWhile isWs).rtakeWhile isWs)) := by
    conv_lhs => rw [hdecomp]
    rw [titleGo_append, hPfix, hPstate, titleGo_append]
  rw [hu] at hexp
  conv_lhs at hexp => rw [hdecomp]
  have hcancel := List.append_cancel_left hexp
  have hlen : (titleGo false (((titleGo false s).dropWhile isWs).rdropWhile isWs)).length =
      (((titleGo false s).dropWhile isWs).rdropWhile isWs).length :=
    titleGo_length _ _
  have := (List.append_inj hcancel.symm hlen).1
  unfold stripStr
  exact this


/-! ## Normalizer idempotence: value- and row-level (C9) -/

theorem getV_some (v : Value) : getV (Option.some v) = v := rfl

theorem strTitleStrip_fix (v : Value) :
    strStrip (strTitle (strStrip (strTitle v))) = strStrip (strTitle v) := by
  cases v with
  | str s =>
      simp only [strTitle, strStrip]
      rw [titleStr_strip_fix, stripStr_idem]
  | int n => rfl
  | nan => rfl
  | none => rfl

theorem strUpperStrip_fix (v : Value) :
    strStrip (strUpper (strStrip (strUpper v))) = strStrip (strUpper v) := by
  cases v with
  | str s =>
      simp only [strUpper, strStrip]
      rw [upper_strip_fix]
  | int n => rfl
  | nan => rfl
  | none => rfl

theorem fillna_str_shape (v : Value) (d : Str) (h : notIntV v = true) :
    ∃ s, fillna v (.str d) = .str s := by
  cases v with
  | str s => exact ⟨s, rfl⟩
  | int n => simp [notIntV] at h
  | nan => exact ⟨d, rfl⟩
  | none => exact ⟨d, rfl⟩

theorem fillTitleStrip_fix (v : Value) (d : Str) (h : notIntV v = true) :
    strStrip (strTitle (fillna (strStrip (strTitle (fillna v (.str d)))) (.str d))) =
      strStrip (strTitle (fillna v (.str d))) := by
  obtain ⟨s, hs⟩ := fillna_str_shape v d h
  rw [hs]
  simp only [strTitle, strStrip, fillna]
  rw [titleStr_strip_fix, stripStr_idem]

theorem fillLowerStrip_fix (v : Value) (d : Str) (h : notIntV v = true) :
    strStrip (strLower (fillna (strStrip (strLower (fillna v (.str d)))) (.str d))) =
      strStrip (strLower (fillna v (.str d))) := by
  obtain ⟨s, hs⟩ := fillna_str_shape v d h
  rw [hs]
  simp only [strLower, strStrip, fillna]
  rw [lower_strip_fix]

theorem fillna_int (n : Int) (d : Value) : fillna (.int n) d = .int n := rfl

theorem astypeInt_ok_int (v w : Value) (h : astypeInt v = .ok w) : ∃ n, w = .int n := by
  unfold astypeInt at h
  rcases hp : pyInt v with e | n
  · rw [hp] at h
    simp [Except.map] at h
  · rw [hp] at h
    simp only [Except.map, Except.ok.injEq] at h
    exact ⟨n, h.symm⟩

theorem normStudentRow_fix (r r' : Row) (hn : notIntV (getV r.name) = true)
    (he : notIntV (getV r.email) = true) (h : normStudentRow r = .ok r') :
    normStudentRow r' = .ok r' := by
  unfold normStudentRow at h
  rcases hy : astypeInt (fillna (getV r.year) (.int 1)) with e | yv
  · simp only [hy] at h
    simp at h
  · simp only [hy, Except.ok.injEq] at h
    obtain ⟨n, hyv⟩ := astypeInt_ok_int _ _ hy
    subst hyv
    subst h
    unfold normStudentRow
    simp only [getV_some, fillna_int, astypeInt, pyInt, Except.map]
    rw [fillTitleStrip_fix (getV r.name) (lit "Unknown") hn,
        fillLowerStrip_fix (getV r.email) (lit "unknown@example.com") he]

theorem normCourseRow_fix (r r' : Row) (h : normCourseRow r = .ok r') :
    normCourseRow r' = .ok r' := by
  unfold normCourseRow at h
  rcases hy : astypeInt (getV r.credits) with e | cv
  · simp only [hy] at h
    simp at h
  · simp only [hy, Except.ok.injEq] at h
    obtain ⟨n, hcv⟩ := astypeInt_ok_int _ _ hy
    subst hcv
    subst h
    unfold normCourseRow
    simp only [getV_some, astypeInt, pyInt, Except.map]
    rw [strUpperStrip_fix (getV r.code), strTitleStrip_fix (getV r.name)]

theorem except_bind_ok {α β ε : Type} (a : α) (f : α → Except ε β) :
    (Except.ok a >>= f) = f a := rfl

theorem except_bind_err {α β ε : Type} (e : ε) (f : α → Except ε β) :
    ((Except.error e : Except ε α) >>= f) = Except.error e := rfl

theorem except_map_ok {α β ε : Type} (f : α → β) (a : α) :
    (f <$> (Except.ok a : Except ε α)) = Except.ok (f a) := rfl

theorem except_map_err {α β ε : Type} (f : α → β) (e : ε) :
    (f <$> (Except.error e : Except ε α)) = Except.error e := rfl

theorem except_pure {α ε : Type} (a : α) : (pure a : Except ε α) = Except.ok a := rfl

theorem normStudentBatch_fix (df : List Row) :
    ∀ (out : List Row),
      (∀ r ∈ df, notIntV (getV r.name) = true ∧ notIntV (getV r.email) = true) →
      normStudentBatch df = .ok out → normStudentBatch out = .ok out := by
  induction df with
  | nil =>
      intro out _ h
      simp only [normStudentBatch, List.mapM_nil] at h ⊢
      cases h
      rfl
  | cons a rs ih =>
      intro out hdf h
      simp only [normStudentBatch, List.mapM_cons] at h
      rcases ha : normStudentRow a with e | a'
      · simp only [ha, except_bind_err, except_bind_ok, except_map_err, except_map_ok,
          except_pure] at h
        simp at h
      · simp only [ha, except_bind_ok] at h
        rcases hrs : rs.mapM normStudentRow with e | rs'
        · simp only [hrs, except_bind_err, except_bind_ok, except_map_err, except_map_ok,
            except_pure] at h
          simp at h
        · simp only [hrs, except_bind_ok, except_map_ok, except_pure,
            Except.ok.injEq] at h
          subst h
          have hfixa := normStudentRow_fix a a'
            (hdf a (List.mem_cons_self _ _)).1 (hdf a (List.mem_cons_self _ _)).2 ha
          have hfixrs := ih rs' (fun r hr => hdf r (List.mem_cons_of_mem _ hr)) hrs
          simp only [normStudentBatch] at hfixrs
          simp only [normStudentBatch, List.mapM_cons, hfixa, hfixrs, except_bind_ok,
            except_map_ok, except_pure]

theorem normCourseBatch_fix (df : List Row) :
    ∀ (out : List Row),
      normCourseBatch df = .ok out → normCourseBatch out = .ok out := by
  induction df with
  | nil =>
      intro out h
      simp only [normCourseBatch, List.mapM_nil] at h ⊢
      cases h
      rfl
  | cons a rs ih =>
      intro out h
      simp only [normCourseBatch, List.mapM_cons] at h
      rcases ha : normCourseRow a with e | a'
      · simp only [ha, except_bind_err, except_bind_ok, except_map_err, except_map_ok,
          except_pure] at h
        simp at h
      · simp only [ha, except_bind_ok] at h
        rcases hrs : rs.mapM normCourseRow with e | rs'
        · simp only [hrs, except_bind_err, except_bind_ok, except_map_err, except_map_ok,
            except_pure] at h
          simp at h
        · simp only [hrs, except_bind_ok, except_map_ok, except_pure,
            Except.ok.injEq] at h
          subst h
          have hfixa := normCourseRow_fix a a' ha
          have hfixrs := ih rs' hrs
          simp only [normCourseBatch] at hfixrs
          simp only [normCourseBatch, List.mapM_cons, hfixa, hfixrs, except_bind_ok,
            except_map_ok, except_pure]

/-- C9 counterexample: on a batch whose name column holds a non-string
cell, the first student-normalization pass turns that cell into NaN
(pandas `.str` accessor semantics) and the second pass fills the "Unknown"
placeholder into it, so applying the normalization step twice does not
yield the same output as applying it once. -/
theorem c9_counterexample :
    normStudentBatch [mixedNameA, mixedNameB] = .ok [mixedNameA, nanNameRow] ∧
    normStudentBatch [mixedNameA, nanNameRow] = .ok [mixedNameA, unknownNameRow] ∧
    nanNameRow ≠ unknownNameRow := by
  decide

/-- C9 amended: the Normalizer is idempotent except for the interaction of
the student placeholder fill with the `.str` accessor: on student batches
whose name and email cells are strings or missing (not ints), and on all
course batches unconditionally, a successful normalization pass is a fixed
point of the normalizer. -/
theorem c9_normalizer_idempotent :
    (∀ (df out : List Row),
        (∀ r ∈ df, notIntV (getV r.name) = true ∧ notIntV (getV r.email) = true) →
        normStudentBatch df = .ok out → normStudentBatch out = .ok out) ∧
    (∀ (df out : List Row),
        normCourseBatch df = .ok out → normCourseBatch out = .ok out) :=
  ⟨fun df out h1 h2 => normStudentBatch_fix df out h1 h2,
   fun df out h => normCourseBatch_fix df out h⟩

/-- C9 witness: the amended theorem at concrete one-row batches. -/
theorem c9_normalizer_idempotent_witness :
    normStudentBatch [mixedNameA] = .ok [mixedNameA] ∧
    normCourseBatch [normedCourse] = .ok [normedCourse] :=
  ⟨c9_normalizer_idempotent.1 [mixedNameA] [mixedNameA] (by decide) (by decide),
   c9_normalizer_idempotent.2 [normedCourse] [normedCourse] (by decide)⟩


end Sheet2Neon
